import Mathlib

/-!
Verification of the rule-evaluation core of the CashVault finance app
(`src/lib/inngest/functions.js`): the recurring-transaction scheduler logic
and the budget-alert evaluator.  The JavaScript code is shallowly embedded:
instants are modelled at calendar-day granularity (the logic never inspects
time-of-day), JS `Date` field conventions are kept (0-based months, 1-based
days, `MakeDay` normalisation of out-of-range fields), decimal amounts are
modelled as exact rationals, and the one place where IEEE special values
matter (division by a zero budget amount) is modelled explicitly.
-/

namespace CashVault

/-- Calendar date in JS `Date` field convention: `month` is 0-based
(0 = January), `day` is 1-based.  Instants are modelled at calendar-day
granularity; time-of-day plays no role in the verified logic. -/
structure CDate where
  year : Int
  month : Nat
  day : Nat
deriving DecidableEq

/-- Leap-year rule of JS `Date` arithmetic (proleptic Gregorian). -/
def isLeapYear (y : Int) : Bool :=
  (y % 4 == 0 && y % 100 != 0) || y % 400 == 0

/-- Number of days of month `m` (0-based) in year `y`. -/
def daysInMonth (y : Int) (m : Nat) : Nat :=
  if m = 1 then (if isLeapYear y then 29 else 28)
  else if m = 3 ∨ m = 5 ∨ m = 8 ∨ m = 10 then 30
  else 31

/-- (year, month) of the month following (`y`, `m`), for `m < 12`. -/
def nextMonthFst (y : Int) (m : Nat) : Int × Nat :=
  if m = 11 then (y + 1, 0) else (y, m + 1)

/-- Successor day in the calendar. -/
def succDay (dt : CDate) : CDate :=
  if dt.day < daysInMonth dt.year dt.month then ⟨dt.year, dt.month, dt.day + 1⟩
  else ⟨(nextMonthFst dt.year dt.month).1, (nextMonthFst dt.year dt.month).2, 1⟩

/-- JS `MakeDay(y, m, d)` restricted to `d ≥ 1`: normalise the month into
`[0, 12)` carrying into the year, then walk `d - 1` days forward from the
first of that month.  This is how `Date.prototype.setDate`, `setMonth` and
`setFullYear` resolve out-of-range fields (e.g. Feb 31 rolls over to Mar 2
or Mar 3). -/
def makeDay (y : Int) (m : Nat) (d : Nat) : CDate :=
  succDay^[d - 1] ⟨y + (m / 12 : Nat), m % 12, 1⟩

/-- `Date.prototype.setDate` restricted to the date fields. -/
def setDateJS (dt : CDate) (d : Nat) : CDate := makeDay dt.year dt.month d

/-- `Date.prototype.setMonth` restricted to the date fields. -/
def setMonthJS (dt : CDate) (m : Nat) : CDate := makeDay dt.year m dt.day

/-- `Date.prototype.setFullYear` restricted to the date fields. -/
def setFullYearJS (dt : CDate) (y : Int) : CDate := makeDay y dt.month dt.day

/-- Embeds `calculateNextRecurringDate` from `src/lib/inngest/functions.js`:
a `switch` on the interval string with no `default` case, so an unrecognised
interval leaves the date unchanged. -/
def calculateNextRecurringDate (date : CDate) (interval : String) : CDate :=
  if interval = "DAILY" then setDateJS date (date.day + 1)
  else if interval = "WEEKLY" then setDateJS date (date.day + 7)
  else if interval = "MONTHLY" then setMonthJS date (date.month + 1)
  else if interval = "YEARLY" then setFullYearJS date (date.year + 1)
  else date

/-- The fields denote an actual calendar day. -/
def ValidDate (dt : CDate) : Prop :=
  dt.month < 12 ∧ 1 ≤ dt.day ∧ dt.day ≤ daysInMonth dt.year dt.month

instance : DecidablePred ValidDate := fun dt => by
  unfold ValidDate; infer_instance

/-- Injective monotone key: lexicographic (year, month, day) packed into
`Int` (sound because `month < 12` and `day ≤ 31 < 32` on valid dates). -/
def dateKey (dt : CDate) : Int :=
  (dt.year * 12 + dt.month) * 32 + dt.day

/-- Chronological order on dates (via the packed key). -/
def dateLe (a b : CDate) : Prop := dateKey a ≤ dateKey b

instance : ∀ a b, Decidable (dateLe a b) := fun a b => by
  unfold dateLe; infer_instance

/-- Boolean form of `dateLe`, the comparison JS performs on `Date` values. -/
def dateLeB (a b : CDate) : Bool := dateKey a ≤ dateKey b

/-- Two instants fall in the same (month, year) pair — the granularity of the
budget-alert cooldown. -/
def sameMonth (a b : CDate) : Prop := a.month = b.month ∧ a.year = b.year

/-- Embeds `isNewMonth` from `src/lib/inngest/functions.js`: the months or
the full years differ. -/
def isNewMonth (lastAlertDate currentDate : CDate) : Bool :=
  lastAlertDate.month != currentDate.month || lastAlertDate.year != currentDate.year

/-- Spec-side calendar operation: advance a date by `k` calendar days. -/
def addDays (dt : CDate) (k : Nat) : CDate := succDay^[k] dt

/-- Spec-side calendar operation: add one calendar month; a day past the end
of the target month overflows into the following month by the excess
(standard calendar overflow adjustment, e.g. Jan 31 + 1 month = Mar 2 in a
leap year, Mar 3 otherwise). -/
def addOneMonth (dt : CDate) : CDate :=
  if dt.day ≤ daysInMonth (nextMonthFst dt.year dt.month).1 (nextMonthFst dt.year dt.month).2 then
    ⟨(nextMonthFst dt.year dt.month).1, (nextMonthFst dt.year dt.month).2, dt.day⟩
  else
    ⟨(nextMonthFst (nextMonthFst dt.year dt.month).1 (nextMonthFst dt.year dt.month).2).1,
     (nextMonthFst (nextMonthFst dt.year dt.month).1 (nextMonthFst dt.year dt.month).2).2,
     dt.day - daysInMonth (nextMonthFst dt.year dt.month).1 (nextMonthFst dt.year dt.month).2⟩

/-- Spec-side calendar operation: add one calendar year; Feb 29 overflows to
Mar 1 when the target year is not leap. -/
def addOneYear (dt : CDate) : CDate :=
  if dt.day ≤ daysInMonth (dt.year + 1) dt.month then ⟨dt.year + 1, dt.month, dt.day⟩
  else ⟨(nextMonthFst (dt.year + 1) dt.month).1, (nextMonthFst (dt.year + 1) dt.month).2,
        dt.day - daysInMonth (dt.year + 1) dt.month⟩

/-- One calendar unit of the given interval string, spec-side. -/
def unitSpec (i : String) (dt : CDate) : CDate :=
  if i = "DAILY" then addDays dt 1
  else if i = "WEEKLY" then addDays dt 7
  else if i = "MONTHLY" then addOneMonth dt
  else if i = "YEARLY" then addOneYear dt
  else dt

/-- Transaction type enum of the data model. -/
inductive TxType
  | EXPENSE
  | INCOME
deriving DecidableEq

/-- Transaction status enum of the data model. -/
inductive TxStatus
  | PENDING
  | COMPLETED
  | FAILED
deriving DecidableEq

/-- The fields of a stored transaction row that the scheduler logic reads or
writes.  Decimal amounts become exact rationals; nullable columns become
`Option`. -/
structure Transaction where
  ttype : TxType
  amount : Option ℚ
  description : String
  date : CDate
  category : String
  userId : String
  accountId : String
  isRecurring : Bool
  status : TxStatus
  recurringInterval : Option String
  lastProcessed : Option CDate
  nextRecurringDate : Option CDate
deriving DecidableEq

/-- JS `new Date(null)` is the Unix epoch; `isTransactionDue` coerces a null
`nextRecurringDate` this way before comparing. -/
def epochDate : CDate := ⟨1970, 0, 1⟩

/-- Embeds `isTransactionDue` from `src/lib/inngest/functions.js` with the
implicit `new Date()` made an explicit `now` argument: due when
`lastProcessed` is absent, otherwise when `nextRecurringDate <= now`. -/
def isTransactionDue (t : Transaction) (now : CDate) : Bool :=
  match t.lastProcessed with
  | none => true
  | some _ => dateLeB ((t.nextRecurringDate).getD epochDate) now

/-- `transaction.amount ? transaction.amount.toNumber() : 0` from the code. -/
def amountValue (t : Transaction) : ℚ := (t.amount).getD 0

/-- The ledger row created by `processRecurringTransaction` (lines 33-44 of
`src/lib/inngest/functions.js`): same type, amount, category and account,
description suffixed, dated `now`, and explicitly `isRecurring: false`.  The
scheduling columns, which the `create` call does not set, take their schema
defaults (a plain completed ledger row, per the spec data model). -/
def newLedgerEntry (t : Transaction) (now : CDate) : Transaction :=
  { ttype := t.ttype
    amount := t.amount
    description := t.description ++ " (Recurring)"
    date := now
    category := t.category
    userId := t.userId
    accountId := t.accountId
    isRecurring := false
    status := TxStatus.COMPLETED
    recurringInterval := none
    lastProcessed := none
    nextRecurringDate := none }

/-- The three-part mutation intent a due firing commits atomically. -/
structure LedgerMutation where
  newEntry : Transaction
  balanceDelta : ℚ
  lastProcessed : CDate
  nextRecurringDate : CDate
deriving DecidableEq

/-- Embeds the decision core of `processRecurringTransaction` from
`src/lib/inngest/functions.js` (the body of the database transaction, with
the implicit `new Date()` made an explicit `now`): a transaction that is not
due yields no mutation; a due one yields the new ledger entry, the signed
balance delta, and the advanced `lastProcessed` / `nextRecurringDate`. -/
def processRecurringTransaction (t : Transaction) (now : CDate) : Option LedgerMutation :=
  if isTransactionDue t now then
    some { newEntry := newLedgerEntry t now
           balanceDelta := if t.ttype = TxType.EXPENSE then -(amountValue t) else amountValue t
           lastProcessed := now
           nextRecurringDate := calculateNextRecurringDate now ((t.recurringInterval).getD "") }
  else none

/-- Embeds the `findMany` filter of `triggerRecurringTransactions` (lines
78-89 of `src/lib/inngest/functions.js`): `isRecurring` true, status
COMPLETED, and `lastProcessed` null or `nextRecurringDate <= now` (an SQL
comparison, which a null `nextRecurringDate` never satisfies). -/
def selectDueTransactions (all : List Transaction) (now : CDate) : List Transaction :=
  all.filter fun t =>
    t.isRecurring && decide (t.status = TxStatus.COMPLETED) &&
      (decide (t.lastProcessed = none) ||
        match t.nextRecurringDate with
        | some nd => dateLeB nd now
        | none => false)

/-- A store evolving by recurring-transaction firings: each step appends the
ledger entry spawned by processing a due stored transaction. -/
inductive Reach : List Transaction → List Transaction → Prop
  | refl (s : List Transaction) : Reach s s
  | fire (s0 s : List Transaction) (t : Transaction) (now : CDate) :
      Reach s0 s → t ∈ s → isTransactionDue t now = true →
      Reach s0 (s ++ [newLedgerEntry t now])

/-- JS number results of the budget percentage computation: a finite value or
one of the IEEE special values that `x / 0` produces. -/
inductive JSNum
  | num (q : ℚ)
  | posInf
  | negInf
  | nan
deriving DecidableEq

/-- JS division of finite values: finite divisor gives the exact quotient;
division by zero gives `Infinity`, `-Infinity` or `NaN` by the dividend's
sign. -/
def jsDiv (a b : ℚ) : JSNum :=
  if b = 0 then (if 0 < a then JSNum.posInf else if a < 0 then JSNum.negInf else JSNum.nan)
  else JSNum.num (a / b)

/-- JS multiplication by a finite constant. -/
def jsMulFin (x : JSNum) (c : ℚ) : JSNum :=
  match x with
  | JSNum.num q => JSNum.num (q * c)
  | JSNum.posInf => if 0 < c then JSNum.posInf else if c < 0 then JSNum.negInf else JSNum.nan
  | JSNum.negInf => if 0 < c then JSNum.negInf else if c < 0 then JSNum.posInf else JSNum.nan
  | JSNum.nan => JSNum.nan

/-- JS `x >= c` for finite `c`: true for `Infinity`, false for `-Infinity`
and `NaN`. -/
def jsGe (x : JSNum) (c : ℚ) : Bool :=
  match x with
  | JSNum.num q => decide (c ≤ q)
  | JSNum.posInf => true
  | JSNum.negInf => false
  | JSNum.nan => false

/-- The fields of a budget row the alert evaluator reads or writes. -/
structure Budget where
  amount : ℚ
  lastAlertSent : Option CDate
deriving DecidableEq

/-- Embeds the per-budget step of `checkBudgetAlerts` (lines 213-240 of
`src/lib/inngest/functions.js`), the spec's `evaluateBudget`:
`percentageUsed = totalExpenses / budgetAmount * 100` under JS number
semantics (the division by a zero amount is NOT guarded), fires when
`percentageUsed >= 80` and (`lastAlertSent` absent or `isNewMonth`), and on
fire sets `lastAlertSent := now`.  Returns the fire decision and the updated
budget. -/
def evaluateBudget (b : Budget) (totalExpenses : ℚ) (now : CDate) : Bool × Budget :=
  let percentageUsed := jsMulFin (jsDiv totalExpenses b.amount) 100
  let fire := jsGe percentageUsed 80 &&
    (match b.lastAlertSent with
     | none => true
     | some last => isNewMonth last now)
  (fire, if fire then { b with lastAlertSent := some now } else b)

/-- Instants at which a trace of evaluator invocations fired, each invocation
carrying its own aggregated expense sum, the budget state threading through
(a fire updates `lastAlertSent`, a non-fire leaves the budget unchanged). -/
def firedDates (b : Budget) : List (CDate × ℚ) → List CDate
  | [] => []
  | (t, e) :: rest =>
      let r := evaluateBudget b e t
      if r.1 then t :: firedDates r.2 rest else firedDates r.2 rest

/-- Sample recurring template used by concrete witnesses. -/
def sampleTx : Transaction :=
  { ttype := TxType.EXPENSE
    amount := some 100
    description := "Streaming subscription"
    date := ⟨2024, 1, 1⟩
    category := "entertainment"
    userId := "user-1"
    accountId := "acct-1"
    isRecurring := true
    status := TxStatus.COMPLETED
    recurringInterval := some "MONTHLY"
    lastProcessed := none
    nextRecurringDate := some ⟨2024, 2, 1⟩ }

/-- Sample instant 2024-03-01 used by concrete witnesses. -/
def sampleNow : CDate := ⟨2024, 2, 1⟩

/-- The mutation `processRecurringTransaction` commits for `sampleTx` at
`sampleNow`. -/
def sampleMutation : LedgerMutation :=
  { newEntry := newLedgerEntry sampleTx sampleNow
    balanceDelta := -100
    lastProcessed := sampleNow
    nextRecurringDate := ⟨2024, 3, 1⟩ }

/-- A due transaction whose interval string is not one of the four
recognised values. -/
def badTx : Transaction := { sampleTx with recurringInterval := some "BIWEEKLY" }

/-- Sample instant 2024-03-10 used by the malformed-interval analysis. -/
def badNow : CDate := ⟨2024, 2, 10⟩

/-- The mutation the code commits for `badTx` at `badNow`: fully applied,
with `nextRecurringDate` left at `badNow` itself. -/
def badMutation : LedgerMutation :=
  { newEntry := newLedgerEntry badTx badNow
    balanceDelta := -100
    lastProcessed := badNow
    nextRecurringDate := badNow }

/-- Sample budget of 1000 with no alert sent yet. -/
def sampleBudget : Budget := ⟨1000, none⟩

/-- Two evaluator invocations inside the same calendar month, both over the
80% threshold. -/
def sampleEvs : List (CDate × ℚ) := [(⟨2024, 2, 15⟩, 850), (⟨2024, 2, 20⟩, 900)]

/-! ### Calendar lemmas -/

theorem daysInMonth_le (y : Int) (m : Nat) : daysInMonth y m ≤ 31 := by
  unfold daysInMonth
  split_ifs <;> omega

theorem daysInMonth_ge (y : Int) (m : Nat) : 28 ≤ daysInMonth y m := by
  unfold daysInMonth
  split_ifs <;> omega

theorem nextMonthFst_lt (y : Int) (m : Nat) (h : m < 12) : (nextMonthFst y m).2 < 12 := by
  unfold nextMonthFst
  split_ifs with h11
  · simp
  · simp; omega

theorem nextMonthFst_key (y : Int) (m : Nat) (h : m < 12) :
    (nextMonthFst y m).1 * 12 + ((nextMonthFst y m).2 : Int) = y * 12 + m + 1 := by
  unfold nextMonthFst
  split_ifs with h11
  · subst h11; simp; ring
  · simp; ring

theorem succDay_mid (y : Int) (m : Nat) (d : Nat) (h : d < daysInMonth y m) :
    succDay ⟨y, m, d⟩ = ⟨y, m, d + 1⟩ := by
  unfold succDay
  simp [h]

theorem succDay_last (y : Int) (m : Nat) :
    succDay ⟨y, m, daysInMonth y m⟩ = ⟨(nextMonthFst y m).1, (nextMonthFst y m).2, 1⟩ := by
  unfold succDay
  simp

theorem succDay_iter_first (y : Int) (m : Nat) (n : Nat) (h : n + 1 ≤ daysInMonth y m) :
    succDay^[n] ⟨y, m, 1⟩ = ⟨y, m, n + 1⟩ := by
  induction n with
  | zero => simp
  | succ n ih =>
    rw [Function.iterate_succ_apply', ih (by omega), succDay_mid y m (n + 1) (by omega)]

theorem succDay_iter_over (y : Int) (m : Nat) (d : Nat) (hd1 : 1 ≤ d) (hd31 : d ≤ 31) :
    succDay^[d - 1] ⟨y, m, 1⟩ =
      if d ≤ daysInMonth y m then (⟨y, m, d⟩ : CDate)
      else ⟨(nextMonthFst y m).1, (nextMonthFst y m).2, d - daysInMonth y m⟩ := by
  have h28 := daysInMonth_ge y m
  have h31 := daysInMonth_le y m
  split_ifs with h
  · have h2 : d - 1 + 1 = d := by omega
    rw [succDay_iter_first y m (d - 1) (by omega), h2]
  · have hsplit : d - 1 = (d - daysInMonth y m - 1) + (1 + (daysInMonth y m - 1)) := by omega
    rw [hsplit, Function.iterate_add_apply, Function.iterate_add_apply, Function.iterate_one]
    have h2 : daysInMonth y m - 1 + 1 = daysInMonth y m := by omega
    rw [succDay_iter_first y m (daysInMonth y m - 1) (by omega), h2, succDay_last]
    have h28n := daysInMonth_ge (nextMonthFst y m).1 (nextMonthFst y m).2
    rw [succDay_iter_first (nextMonthFst y m).1 (nextMonthFst y m).2
          (d - daysInMonth y m - 1) (by omega)]
    have h3 : d - daysInMonth y m - 1 + 1 = d - daysInMonth y m := by omega
    rw [h3]

theorem makeDay_eq (y : Int) (m : Nat) (d : Nat) (hm : m < 12) :
    makeDay y m d = succDay^[d - 1] ⟨y, m, 1⟩ := by
  unfold makeDay
  rw [Nat.div_eq_of_lt hm, Nat.mod_eq_of_lt hm]
  norm_num

theorem makeDay_succMonth (y : Int) (m : Nat) (d : Nat) (hm : m < 12) :
    makeDay y (m + 1) d = succDay^[d - 1] ⟨(nextMonthFst y m).1, (nextMonthFst y m).2, 1⟩ := by
  unfold makeDay nextMonthFst
  by_cases h11 : m = 11
  · subst h11; norm_num
  · have hlt : m + 1 < 12 := by omega
    rw [Nat.div_eq_of_lt hlt, Nat.mod_eq_of_lt hlt]
    simp [h11]

theorem makeDay_add (y : Int) (m : Nat) (d k : Nat) (hm : m < 12) (hd1 : 1 ≤ d)
    (hd2 : d ≤ daysInMonth y m) :
    makeDay y m (d + k) = succDay^[k] ⟨y, m, d⟩ := by
  rw [makeDay_eq y m (d + k) hm]
  have h1 : d + k - 1 = k + (d - 1) := by omega
  rw [h1, Function.iterate_add_apply, succDay_iter_first y m (d - 1) (by omega)]
  have h2 : d - 1 + 1 = d := by omega
  rw [h2]

theorem calcNext_daily (dt : CDate) (h : ValidDate dt) :
    calculateNextRecurringDate dt "DAILY" = addDays dt 1 := by
  obtain ⟨y, m, d⟩ := dt
  obtain ⟨hm, hd1, hd2⟩ := h
  show makeDay y m (d + 1) = succDay^[1] ⟨y, m, d⟩
  exact makeDay_add y m d 1 hm hd1 hd2

theorem calcNext_weekly (dt : CDate) (h : ValidDate dt) :
    calculateNextRecurringDate dt "WEEKLY" = addDays dt 7 := by
  obtain ⟨y, m, d⟩ := dt
  obtain ⟨hm, hd1, hd2⟩ := h
  show makeDay y m (d + 7) = succDay^[7] ⟨y, m, d⟩
  exact makeDay_add y m d 7 hm hd1 hd2

theorem calcNext_monthly (dt : CDate) (h : ValidDate dt) :
    calculateNextRecurringDate dt "MONTHLY" = addOneMonth dt := by
  obtain ⟨y, m, d⟩ := dt
  obtain ⟨hm, hd1, hd2⟩ := h
  show makeDay y (m + 1) d = addOneMonth ⟨y, m, d⟩
  rw [makeDay_succMonth y m d hm,
    succDay_iter_over (nextMonthFst y m).1 (nextMonthFst y m).2 d hd1
      (hd2.trans (daysInMonth_le y m))]
  rfl

theorem calcNext_yearly (dt : CDate) (h : ValidDate dt) :
    calculateNextRecurringDate dt "YEARLY" = addOneYear dt := by
  obtain ⟨y, m, d⟩ := dt
  obtain ⟨hm, hd1, hd2⟩ := h
  show makeDay (y + 1) m d = addOneYear ⟨y, m, d⟩
  rw [makeDay_eq (y + 1) m d hm,
    succDay_iter_over (y + 1) m d hd1 (hd2.trans (daysInMonth_le y m))]
  rfl

theorem calcNext_default (dt : CDate) (i : String) (h1 : i ≠ "DAILY") (h2 : i ≠ "WEEKLY")
    (h3 : i ≠ "MONTHLY") (h4 : i ≠ "YEARLY") :
    calculateNextRecurringDate dt i = dt := by
  unfold calculateNextRecurringDate
  simp [h1, h2, h3, h4]

theorem calcNext_eq_unitSpec (dt : CDate) (h : ValidDate dt) (i : String) :
    calculateNextRecurringDate dt i = unitSpec i dt := by
  by_cases h1 : i = "DAILY"
  · subst h1; rw [calcNext_daily dt h]; simp [unitSpec]
  by_cases h2 : i = "WEEKLY"
  · subst h2; rw [calcNext_weekly dt h]; simp [unitSpec]
  by_cases h3 : i = "MONTHLY"
  · subst h3; rw [calcNext_monthly dt h]; simp [unitSpec]
  by_cases h4 : i = "YEARLY"
  · subst h4; rw [calcNext_yearly dt h]; simp [unitSpec]
  rw [calcNext_default dt i h1 h2 h3 h4]
  unfold unitSpec
  simp [h1, h2, h3, h4]

theorem succDay_valid (dt : CDate) (h : ValidDate dt) : ValidDate (succDay dt) := by
  obtain ⟨y, m, d⟩ := dt
  obtain ⟨hm, hd1, hd2⟩ := h
  dsimp only at hm hd1 hd2
  have h28 := daysInMonth_ge (nextMonthFst y m).1 (nextMonthFst y m).2
  have hlt12 := nextMonthFst_lt y m hm
  unfold succDay
  split_ifs with hlt
  · dsimp only at hlt
    exact ⟨hm, by dsimp only; omega, by dsimp only; omega⟩
  · exact ⟨hlt12, by dsimp only; omega, by dsimp only; omega⟩

theorem addDays_valid (dt : CDate) (k : Nat) (h : ValidDate dt) : ValidDate (addDays dt k) := by
  induction k with
  | zero => simpa [addDays] using h
  | succ n ih =>
    rw [addDays, Function.iterate_succ_apply']
    exact succDay_valid _ ih

theorem addOneMonth_valid (dt : CDate) (h : ValidDate dt) : ValidDate (addOneMonth dt) := by
  obtain ⟨y, m, d⟩ := dt
  obtain ⟨hm, hd1, hd2⟩ := h
  dsimp only at hm hd1 hd2
  have h31 := daysInMonth_le y m
  have hlt12 := nextMonthFst_lt y m hm
  have h28 := daysInMonth_ge (nextMonthFst y m).1 (nextMonthFst y m).2
  have hlt12n := nextMonthFst_lt (nextMonthFst y m).1 (nextMonthFst y m).2 hlt12
  have h28n := daysInMonth_ge (nextMonthFst (nextMonthFst y m).1 (nextMonthFst y m).2).1
    (nextMonthFst (nextMonthFst y m).1 (nextMonthFst y m).2).2
  unfold addOneMonth
  split_ifs with hle
  · dsimp only at hle
    exact ⟨hlt12, by dsimp only; omega, by dsimp only; omega⟩
  · dsimp only at hle
    exact ⟨hlt12n, by dsimp only; omega, by dsimp only; omega⟩

theorem addOneYear_valid (dt : CDate) (h : ValidDate dt) : ValidDate (addOneYear dt) := by
  obtain ⟨y, m, d⟩ := dt
  obtain ⟨hm, hd1, hd2⟩ := h
  dsimp only at hm hd1 hd2
  have h31 := daysInMonth_le y m
  have h28y := daysInMonth_ge (y + 1) m
  have hlt12n := nextMonthFst_lt (y + 1) m hm
  have h28n := daysInMonth_ge (nextMonthFst (y + 1) m).1 (nextMonthFst (y + 1) m).2
  unfold addOneYear
  split_ifs with hle
  · dsimp only at hle
    exact ⟨hm, by dsimp only; omega, by dsimp only; omega⟩
  · dsimp only at hle
    exact ⟨hlt12n, by dsimp only; omega, by dsimp only; omega⟩

theorem calcNext_valid (dt : CDate) (i : String) (h : ValidDate dt) :
    ValidDate (calculateNextRecurringDate dt i) := by
  rw [calcNext_eq_unitSpec dt h i]
  unfold unitSpec
  split_ifs
  · exact addDays_valid dt 1 h
  · exact addDays_valid dt 7 h
  · exact addOneMonth_valid dt h
  · exact addOneYear_valid dt h
  · exact h

theorem dateKey_mk (y : Int) (m d : Nat) : dateKey ⟨y, m, d⟩ = (y * 12 + m) * 32 + d := rfl

theorem dateKey_succDay (dt : CDate) (h : ValidDate dt) :
    dateKey dt < dateKey (succDay dt) := by
  obtain ⟨y, m, d⟩ := dt
  obtain ⟨hm, hd1, hd2⟩ := h
  dsimp only at hm hd1 hd2
  have h31 := daysInMonth_le y m
  have hk := nextMonthFst_key y m hm
  unfold succDay
  split_ifs with hlt
  · dsimp only at hlt
    simp only [dateKey]
    omega
  · dsimp only at hlt
    simp only [dateKey]
    omega

theorem dateKey_addDays (dt : CDate) (k : Nat) (h : ValidDate dt) (hk : 1 ≤ k) :
    dateKey dt < dateKey (addDays dt k) := by
  induction k with
  | zero => omega
  | succ n ih =>
    rw [addDays, Function.iterate_succ_apply']
    rcases Nat.eq_zero_or_pos n with h0 | hpos
    · subst h0
      simpa using dateKey_succDay dt h
    · have hv : ValidDate (succDay^[n] dt) := addDays_valid dt n h
      have hstep := dateKey_succDay _ hv
      have hn := ih hpos
      rw [addDays] at hn
      omega

theorem dateKey_addOneMonth (dt : CDate) (h : ValidDate dt) :
    dateKey dt < dateKey (addOneMonth dt) := by
  obtain ⟨y, m, d⟩ := dt
  obtain ⟨hm, hd1, hd2⟩ := h
  dsimp only at hm hd1 hd2
  have h31 := daysInMonth_le y m
  have hlt12 := nextMonthFst_lt y m hm
  have h28 := daysInMonth_ge (nextMonthFst y m).1 (nextMonthFst y m).2
  have hk1 := nextMonthFst_key y m hm
  have hk2 := nextMonthFst_key (nextMonthFst y m).1 (nextMonthFst y m).2 hlt12
  unfold addOneMonth
  split_ifs with hle
  · dsimp only at hle
    simp only [dateKey]
    omega
  · dsimp only at hle
    simp only [dateKey]
    omega

theorem dateKey_addOneYear (dt : CDate) (h : ValidDate dt) :
    dateKey dt < dateKey (addOneYear dt) := by
  obtain ⟨y, m, d⟩ := dt
  obtain ⟨hm, hd1, hd2⟩ := h
  dsimp only at hm hd1 hd2
  have h31 := daysInMonth_le y m
  have h28y := daysInMonth_ge (y + 1) m
  have hk := nextMonthFst_key (y + 1) m hm
  unfold addOneYear
  split_ifs with hle
  · dsimp only at hle
    simp only [dateKey]
    omega
  · dsimp only at hle
    simp only [dateKey]
    omega

theorem dateKey_calcNext (dt : CDate) (i : String) (h : ValidDate dt)
    (hi : i = "DAILY" ∨ i = "WEEKLY" ∨ i = "MONTHLY" ∨ i = "YEARLY") :
    dateKey dt < dateKey (calculateNextRecurringDate dt i) := by
  rcases hi with h1 | h1 | h1 | h1 <;> subst h1
  · rw [calcNext_daily dt h]; exact dateKey_addDays dt 1 h (by omega)
  · rw [calcNext_weekly dt h]; exact dateKey_addDays dt 7 h (by omega)
  · rw [calcNext_monthly dt h]; exact dateKey_addOneMonth dt h
  · rw [calcNext_yearly dt h]; exact dateKey_addOneYear dt h

theorem calcNext_iter_valid (dt : CDate) (i : String) (h : ValidDate dt) (k : Nat) :
    ValidDate ((fun x => calculateNextRecurringDate x i)^[k] dt) := by
  induction k with
  | zero => simpa using h
  | succ n ih =>
    rw [Function.iterate_succ_apply']
    exact calcNext_valid _ i ih

set_option maxRecDepth 8000

/-! ### Claims about the next-date computation -/

/-- C5: for every valid date and every interval in {DAILY, WEEKLY, MONTHLY,
YEARLY}, the date produced by `calculateNextRecurringDate` equals the input
plus one unit of the interval: DAILY adds 1 calendar day, WEEKLY 7 calendar
days, MONTHLY one calendar month and YEARLY one calendar year, with a
month-end day overflowing into the following month by the excess (the
standard calendar overflow adjustment that JS `Date` arithmetic performs,
e.g. Jan 31 + 1 month = Mar 2 in a leap year). -/
theorem calcNext_adds_one_unit (dt : CDate) (h : ValidDate dt) :
    calculateNextRecurringDate dt "DAILY" = addDays dt 1 ∧
    calculateNextRecurringDate dt "WEEKLY" = addDays dt 7 ∧
    calculateNextRecurringDate dt "MONTHLY" = addOneMonth dt ∧
    calculateNextRecurringDate dt "YEARLY" = addOneYear dt :=
  ⟨calcNext_daily dt h, calcNext_weekly dt h, calcNext_monthly dt h, calcNext_yearly dt h⟩

/-- Witness for C5 at the overflow-prone date 2024-01-31: the hypothesis
holds and the month case lands on 2024-03-02. -/
theorem calcNext_adds_one_unit_witness :
    ValidDate ⟨2024, 0, 31⟩ ∧
    (calculateNextRecurringDate ⟨2024, 0, 31⟩ "DAILY" = addDays ⟨2024, 0, 31⟩ 1 ∧
     calculateNextRecurringDate ⟨2024, 0, 31⟩ "WEEKLY" = addDays ⟨2024, 0, 31⟩ 7 ∧
     calculateNextRecurringDate ⟨2024, 0, 31⟩ "MONTHLY" = addOneMonth ⟨2024, 0, 31⟩ ∧
     calculateNextRecurringDate ⟨2024, 0, 31⟩ "YEARLY" = addOneYear ⟨2024, 0, 31⟩) ∧
    calculateNextRecurringDate ⟨2024, 0, 31⟩ "MONTHLY" = ⟨2024, 2, 2⟩ :=
  ⟨by decide, calcNext_adds_one_unit ⟨2024, 0, 31⟩ (by decide), by decide⟩

/-- C6: iterating the next-date computation from any valid start, with any
of the four intervals, gives a strictly increasing sequence of dates, each
step spaced by the calendar-correct unit; applying MONTHLY twelve times from
2024-01-15 yields 2025-01-15. -/
theorem calcNext_iter_increasing (dt : CDate) (i : String) (h : ValidDate dt)
    (hi : i = "DAILY" ∨ i = "WEEKLY" ∨ i = "MONTHLY" ∨ i = "YEARLY") (k : Nat) :
    dateKey ((fun x => calculateNextRecurringDate x i)^[k] dt) <
      dateKey ((fun x => calculateNextRecurringDate x i)^[k + 1] dt) ∧
    (fun x => calculateNextRecurringDate x i)^[k + 1] dt =
      unitSpec i ((fun x => calculateNextRecurringDate x i)^[k] dt) ∧
    (fun x => calculateNextRecurringDate x "MONTHLY")^[12] ⟨2024, 0, 15⟩ = ⟨2025, 0, 15⟩ := by
  have hv := calcNext_iter_valid dt i h k
  refine ⟨?_, ?_, ?_⟩
  · rw [Function.iterate_succ_apply']
    exact dateKey_calcNext _ i hv hi
  · rw [Function.iterate_succ_apply']
    exact calcNext_eq_unitSpec _ hv i
  · decide

/-- Witness for C6 at start 2024-01-15 with interval MONTHLY and k = 0. -/
theorem calcNext_iter_increasing_witness :
    ValidDate ⟨2024, 0, 15⟩ ∧
    (dateKey ((fun x => calculateNextRecurringDate x "MONTHLY")^[0] ⟨2024, 0, 15⟩) <
       dateKey ((fun x => calculateNextRecurringDate x "MONTHLY")^[0 + 1] ⟨2024, 0, 15⟩) ∧
     (fun x => calculateNextRecurringDate x "MONTHLY")^[0 + 1] ⟨2024, 0, 15⟩ =
       unitSpec "MONTHLY" ((fun x => calculateNextRecurringDate x "MONTHLY")^[0] ⟨2024, 0, 15⟩) ∧
     (fun x => calculateNextRecurringDate x "MONTHLY")^[12] ⟨2024, 0, 15⟩ = ⟨2025, 0, 15⟩) :=
  ⟨by decide, calcNext_iter_increasing ⟨2024, 0, 15⟩ "MONTHLY" (by decide)
    (Or.inr (Or.inr (Or.inl rfl))) 0⟩

/-! ### Claims about due-checking and processing -/

/-- C3: `isTransactionDue` returns true exactly when `lastProcessed` is
absent or `nextRecurringDate` is at most `now` (a null `nextRecurringDate`
is coerced to the epoch, as JS `new Date(null)` does); in particular a
transaction with `lastProcessed` absent is due regardless of
`nextRecurringDate`.  The function is embedded as a pure function of its
inputs, reflecting that the source reads but never writes. -/
theorem isTransactionDue_iff (t : Transaction) (now : CDate) :
    (isTransactionDue t now = true ↔
      t.lastProcessed = none ∨ dateLe ((t.nextRecurringDate).getD epochDate) now) ∧
    (t.lastProcessed = none → isTransactionDue t now = true) := by
  constructor
  · unfold isTransactionDue
    rcases h : t.lastProcessed with _ | last
    · simp
    · simp [h, dateLeB, dateLe]
  · intro h
    unfold isTransactionDue
    rw [h]

/-- C8: `selectDueTransactions` returns exactly the stored transactions with
`isRecurring` true, status COMPLETED, and `lastProcessed` absent or
`nextRecurringDate` at most `now`; and it is a sublist of its input (the
selection mutates nothing). -/
theorem selectDueTransactions_spec (all : List Transaction) (now : CDate) :
    (∀ t : Transaction, t ∈ selectDueTransactions all now ↔
      (t ∈ all ∧ t.isRecurring = true ∧ t.status = TxStatus.COMPLETED ∧
        (t.lastProcessed = none ∨ ∃ nd, t.nextRecurringDate = some nd ∧ dateLe nd now))) ∧
    (selectDueTransactions all now).Sublist all := by
  constructor
  · intro t
    unfold selectDueTransactions
    rw [List.mem_filter]
    rcases hnd : t.nextRecurringDate with _ | nd
    · simp [hnd, dateLeB, dateLe]
      tauto
    · simp [hnd, dateLeB, dateLe]
      tauto
  · exact List.filter_sublist all

/-- C4: whenever `processRecurringTransaction` fires, the balance delta is
the negated amount for an EXPENSE and the amount itself for an INCOME, so
for a positive amount the sign matches the type and the magnitude equals the
amount. -/
theorem processRecurring_balanceDelta (t : Transaction) (now : CDate) (m : LedgerMutation)
    (h : processRecurringTransaction t now = some m) :
    m.balanceDelta = (if t.ttype = TxType.EXPENSE then -(amountValue t) else amountValue t) ∧
    (t.ttype = TxType.EXPENSE → m.balanceDelta = -(amountValue t)) ∧
    (t.ttype = TxType.INCOME → m.balanceDelta = amountValue t) ∧
    (0 < amountValue t →
      (t.ttype = TxType.EXPENSE → m.balanceDelta < 0) ∧
      (t.ttype = TxType.INCOME → 0 < m.balanceDelta) ∧
      |m.balanceDelta| = amountValue t) := by
  rw [processRecurringTransaction] at h
  split at h
  · rw [Option.some.injEq] at h
    subst h
    refine ⟨rfl, ?_, ?_, ?_⟩
    · intro he
      dsimp only
      rw [if_pos he]
    · intro hi
      dsimp only
      rw [if_neg (by rw [hi]; exact fun hc => by cases hc)]
    · intro hpos
      dsimp only
      rcases hty : t.ttype
      · rw [if_pos rfl]
        refine ⟨fun _ => by linarith, fun hc => absurd hc (by decide), ?_⟩
        rw [abs_neg, abs_of_pos hpos]
      · rw [if_neg (by decide)]
        exact ⟨fun hc => absurd hc (by decide), fun _ => hpos, abs_of_pos hpos⟩
  · cases h

/-- Witness for C4: the sample EXPENSE template of 100 firing on 2024-03-01
yields the concrete mutation with balance delta -100. -/
theorem processRecurring_balanceDelta_witness :
    processRecurringTransaction sampleTx sampleNow = some sampleMutation ∧
    (sampleMutation.balanceDelta =
      (if sampleTx.ttype = TxType.EXPENSE then -(amountValue sampleTx) else amountValue sampleTx) ∧
     (sampleTx.ttype = TxType.EXPENSE → sampleMutation.balanceDelta = -(amountValue sampleTx)) ∧
     (sampleTx.ttype = TxType.INCOME → sampleMutation.balanceDelta = amountValue sampleTx) ∧
     (0 < amountValue sampleTx →
       (sampleTx.ttype = TxType.EXPENSE → sampleMutation.balanceDelta < 0) ∧
       (sampleTx.ttype = TxType.INCOME → 0 < sampleMutation.balanceDelta) ∧
       |sampleMutation.balanceDelta| = amountValue sampleTx)) :=
  ⟨by decide, processRecurring_balanceDelta sampleTx sampleNow sampleMutation (by decide)⟩

/-- C9 counterexample: the due transaction `badTx` has the malformed
interval "BIWEEKLY", yet processing does not skip it: the full mutation is
applied (ledger entry, balance delta, `lastProcessed`), with
`nextRecurringDate` left at `now` itself because the interval `switch` has
no default case.  This refutes "skips the transaction without applying any
mutation". -/
theorem malformedInterval_counterexample :
    badTx.recurringInterval = some "BIWEEKLY" ∧
    isTransactionDue badTx badNow = true ∧
    processRecurringTransaction badTx badNow = some badMutation ∧
    badMutation.nextRecurringDate = badNow :=
  ⟨rfl, by decide, by decide, rfl⟩

/-- C9 amended: a due transaction whose interval is not one of the four
recognised strings is still processed without raising: the full mutation is
applied, and its `nextRecurringDate` is `now` unadvanced (so the row is due
again on every subsequent run). -/
theorem malformedInterval_processed (t : Transaction) (now : CDate) (s : String)
    (hs : t.recurringInterval = some s) (h1 : s ≠ "DAILY") (h2 : s ≠ "WEEKLY")
    (h3 : s ≠ "MONTHLY") (h4 : s ≠ "YEARLY") (hdue : isTransactionDue t now = true) :
    processRecurringTransaction t now =
      some { newEntry := newLedgerEntry t now
             balanceDelta := if t.ttype = TxType.EXPENSE then -(amountValue t) else amountValue t
             lastProcessed := now
             nextRecurringDate := now } := by
  unfold processRecurringTransaction
  rw [if_pos hdue, hs]
  have hd : calculateNextRecurringDate now ((some s).getD "") = now := by
    rw [Option.getD]
    exact calcNext_default now s h1 h2 h3 h4
  rw [hd]

/-- Witness for C9's amended statement at `badTx`, `badNow`. -/
theorem malformedInterval_processed_witness :
    badTx.recurringInterval = some "BIWEEKLY" ∧
    isTransactionDue badTx badNow = true ∧
    processRecurringTransaction badTx badNow =
      some { newEntry := newLedgerEntry badTx badNow
             balanceDelta :=
               if badTx.ttype = TxType.EXPENSE then -(amountValue badTx) else amountValue badTx
             lastProcessed := badNow
             nextRecurringDate := badNow } :=
  ⟨rfl, by decide,
    malformedInterval_processed badTx badNow "BIWEEKLY" rfl (by decide) (by decide)
      (by decide) (by decide) (by decide)⟩

/-- Every entry whose `isRecurring` is false is excluded by the due filter. -/
theorem not_selected_of_not_recurring (e : Transaction) (h : e.isRecurring = false)
    (l : List Transaction) (now : CDate) : e ∉ selectDueTransactions l now := by
  intro hmem
  unfold selectDueTransactions at hmem
  rw [List.mem_filter] at hmem
  simp [h] at hmem

/-- Entries present in a reachable store but not in the initial one are
spawned ledger entries, hence non-recurring. -/
theorem reach_new_not_recurring (s0 s : List Transaction) (hr : Reach s0 s) :
    ∀ x : Transaction, x ∈ s → x ∉ s0 → x.isRecurring = false := by
  induction hr with
  | refl => exact fun x hx hnx => absurd hx hnx
  | fire s1 t now hr ht hdue ih =>
    intro x hx hnx
    rcases List.mem_append.mp hx with hmem | hmem
    · exact ih x hmem hnx
    · rw [List.mem_singleton] at hmem
      subst hmem
      rfl

/-- C10: along any sequence of recurring-transaction firings, every entry
added to the store (i.e. not part of the initial store) is a spawned ledger
entry with `isRecurring = false`, and such an entry is never selected as a
due recurring template by `selectDueTransactions` — a firing cannot cause
self-replicating recurrence. -/
theorem spawned_not_reselected (s0 s : List Transaction) (hr : Reach s0 s) (e : Transaction)
    (he : e ∈ s) (hnew : e ∉ s0) :
    e.isRecurring = false ∧
    ∀ (l : List Transaction) (now : CDate), e ∉ selectDueTransactions l now := by
  have h := reach_new_not_recurring s0 s hr e he hnew
  exact ⟨h, fun l now => not_selected_of_not_recurring e h l now⟩

/-- Witness for C10: one firing of the sample template; the spawned entry is
new, non-recurring, and not selected as due. -/
theorem spawned_not_reselected_witness :
    Reach [sampleTx] ([sampleTx] ++ [newLedgerEntry sampleTx sampleNow]) ∧
    (newLedgerEntry sampleTx sampleNow).isRecurring = false ∧
    newLedgerEntry sampleTx sampleNow ∉
      selectDueTransactions [newLedgerEntry sampleTx sampleNow] sampleNow := by
  have hr : Reach [sampleTx] ([sampleTx] ++ [newLedgerEntry sampleTx sampleNow]) :=
    Reach.fire [sampleTx] [sampleTx] sampleTx sampleNow (Reach.refl [sampleTx])
      (by simp) (by decide)
  have h := spawned_not_reselected [sampleTx] ([sampleTx] ++ [newLedgerEntry sampleTx sampleNow])
    hr (newLedgerEntry sampleTx sampleNow) (by simp) (by decide)
  exact ⟨hr, h.1, h.2 [newLedgerEntry sampleTx sampleNow] sampleNow⟩

/-! ### Claims about the budget-alert evaluator -/

theorem isNewMonth_iff (a b : CDate) : isNewMonth a b = true ↔ ¬ sameMonth a b := by
  unfold isNewMonth sameMonth
  simp [bne_iff_ne]
  tauto

/-- C1: for a budget with nonzero amount, the evaluator fires exactly when
the percentage used, `expenseSum / amount * 100` in exact arithmetic, is at
least 80 and the cooldown allows: `lastAlertSent` absent, or its (month,
year) differing from `now`'s.  (The `amount = 0` case, where the formula has
no exact-arithmetic meaning and JS produces an infinity or NaN, is analysed
separately with `zeroBudget_behavior`.) -/
theorem evaluateBudget_fire_iff (b : Budget) (e : ℚ) (now : CDate) (h : b.amount ≠ 0) :
    (evaluateBudget b e now).1 = true ↔
      (80 ≤ e / b.amount * 100 ∧
        (b.lastAlertSent = none ∨
          ∃ last, b.lastAlertSent = some last ∧
            (last.month ≠ now.month ∨ last.year ≠ now.year))) := by
  rcases hl : b.lastAlertSent with _ | last <;>
    simp [evaluateBudget, jsDiv, jsMulFin, jsGe, hl, h, isNewMonth, bne_iff_ne]

/-- Witness for C1: budget 1000, expenses 850, no alert sent, on 2024-03-15
— the spec's own scenario — satisfies the hypothesis and fires. -/
theorem evaluateBudget_fire_iff_witness :
    sampleBudget.amount ≠ 0 ∧
    ((evaluateBudget sampleBudget 850 ⟨2024, 2, 15⟩).1 = true ↔
      (80 ≤ (850 : ℚ) / sampleBudget.amount * 100 ∧
        (sampleBudget.lastAlertSent = none ∨
          ∃ last, sampleBudget.lastAlertSent = some last ∧
            (last.month ≠ (⟨2024, 2, 15⟩ : CDate).month ∨
             last.year ≠ (⟨2024, 2, 15⟩ : CDate).year)))) ∧
    (evaluateBudget sampleBudget 850 ⟨2024, 2, 15⟩).1 = true := by
  refine ⟨by norm_num [sampleBudget],
    evaluateBudget_fire_iff sampleBudget 850 ⟨2024, 2, 15⟩ (by norm_num [sampleBudget]), ?_⟩
  simp [evaluateBudget, jsDiv, jsMulFin, jsGe, sampleBudget]
  norm_num

/-- C2 counterexample: with `budget.amount = 0`, positive expenses and no
alert sent, the evaluator FIRES — the division by zero is not guarded; JS
computes `percentageUsed = Infinity`, and `Infinity >= 80` holds.  This
refutes "does not fire an alert". -/
theorem zeroBudget_fires_counterexample :
    (Budget.mk 0 none).amount = 0 ∧
    (evaluateBudget ⟨0, none⟩ 850 ⟨2024, 2, 15⟩).1 = true :=
  ⟨rfl, by decide⟩

/-- C2 amended: with `budget.amount = 0` the evaluator does not raise (the
embedded step is total, as JS division never throws), but it is not guarded
to "never fire": `percentageUsed` is `Infinity` when the expense sum is
positive, `NaN` when it is zero and `-Infinity` when negative, so the alert
fires exactly when the expense sum is positive and the monthly cooldown
allows. -/
theorem zeroBudget_behavior (b : Budget) (e : ℚ) (now : CDate) (h : b.amount = 0) :
    (evaluateBudget b e now).1 = true ↔
      (0 < e ∧
        (b.lastAlertSent = none ∨
          ∃ last, b.lastAlertSent = some last ∧
            (last.month ≠ now.month ∨ last.year ≠ now.year))) := by
  by_cases he : 0 < e
  · rcases hl : b.lastAlertSent with _ | last <;>
      simp [evaluateBudget, jsDiv, jsMulFin, jsGe, hl, h, he, isNewMonth, bne_iff_ne,
        show (0 : ℚ) < 100 from by norm_num]
  · by_cases he2 : e < 0 <;> rcases hl : b.lastAlertSent with _ | last <;>
      simp [evaluateBudget, jsDiv, jsMulFin, jsGe, hl, h, he, he2, isNewMonth, bne_iff_ne,
        show (0 : ℚ) < 100 from by norm_num]

/-- Witness for C2's amended statement at a zero budget with expenses 850. -/
theorem zeroBudget_behavior_witness :
    (Budget.mk 0 none).amount = 0 ∧
    ((evaluateBudget ⟨0, none⟩ 850 ⟨2024, 2, 15⟩).1 = true ↔
      (0 < (850 : ℚ) ∧
        ((Budget.mk 0 none).lastAlertSent = none ∨
          ∃ last, (Budget.mk 0 none).lastAlertSent = some last ∧
            (last.month ≠ (⟨2024, 2, 15⟩ : CDate).month ∨
             last.year ≠ (⟨2024, 2, 15⟩ : CDate).year)))) :=
  ⟨rfl, zeroBudget_behavior ⟨0, none⟩ 850 ⟨2024, 2, 15⟩ rfl⟩

theorem dateLe_refl (a : CDate) : dateLe a a := le_refl (dateKey a)

theorem dateLe_trans (a b c : CDate) (h1 : dateLe a b) (h2 : dateLe b c) : dateLe a c :=
  le_trans h1 h2

/-- Any valid instant lying between two valid instants of one calendar month
lies in that same month (lexicographic date order). -/
theorem sameMonth_between (a b c : CDate) (ha : ValidDate a) (hb : ValidDate b)
    (hc : ValidDate c) (h1 : dateLe a b) (h2 : dateLe b c) (h3 : sameMonth a c) :
    sameMonth a b ∧ sameMonth b c := by
  obtain ⟨ya, ma, da⟩ := a
  obtain ⟨yb, mb, db⟩ := b
  obtain ⟨yc, mc, dc⟩ := c
  obtain ⟨hma, hda1, hda2⟩ := ha
  obtain ⟨hmb, hdb1, hdb2⟩ := hb
  obtain ⟨hmc, hdc1, hdc2⟩ := hc
  obtain ⟨hmon, hyr⟩ := h3
  dsimp only at hma hda1 hda2 hmb hdb1 hdb2 hmc hdc1 hdc2 hmon hyr
  have h31a := daysInMonth_le ya ma
  have h31b := daysInMonth_le yb mb
  have h31c := daysInMonth_le yc mc
  unfold dateLe dateKey at h1 h2
  dsimp only at h1 h2
  unfold sameMonth
  refine ⟨⟨?_, ?_⟩, ⟨?_, ?_⟩⟩ <;> dsimp only <;> omega

theorem evaluateBudget_snd_fire (b : Budget) (e : ℚ) (now : CDate)
    (hf : (evaluateBudget b e now).1 = true) :
    (evaluateBudget b e now).2 = { b with lastAlertSent := some now } := by
  unfold evaluateBudget at hf ⊢
  dsimp only at hf ⊢
  rw [if_pos hf]

theorem evaluateBudget_snd_nofire (b : Budget) (e : ℚ) (now : CDate)
    (hf : ¬ (evaluateBudget b e now).1 = true) :
    (evaluateBudget b e now).2 = b := by
  unfold evaluateBudget at hf ⊢
  dsimp only at hf ⊢
  rw [if_neg hf]

theorem evaluateBudget_fire_isNewMonth (b : Budget) (e : ℚ) (now w : CDate)
    (hb : b.lastAlertSent = some w) (hf : (evaluateBudget b e now).1 = true) :
    isNewMonth w now = true := by
  unfold evaluateBudget at hf
  dsimp only at hf
  rw [hb] at hf
  dsimp only at hf
  rw [Bool.and_eq_true] at hf
  exact hf.2

/-- After a fire at `t` (so the state records `lastAlertSent = some w` with
`t ≤ w`), no later invocation in the trace fires inside `t`'s calendar
month. -/
theorem firedDates_after (evs : List (CDate × ℚ)) :
    ∀ (b : Budget) (t w : CDate), b.lastAlertSent = some w → ValidDate t → ValidDate w →
      dateLe t w → (∀ p ∈ evs, ValidDate p.1) → (∀ p ∈ evs, dateLe w p.1) →
      List.Pairwise (fun p q : CDate × ℚ => dateLe p.1 q.1) evs →
      ∀ c ∈ firedDates b evs, ¬ sameMonth t c := by
  induction evs with
  | nil =>
    intro b t w _ _ _ _ _ _ _ c hc
    simp [firedDates] at hc
  | cons p rest ih =>
    obtain ⟨t1, e1⟩ := p
    intro b t w hb hvt hvw htw hval hfut hsort c hc
    have hv1 : ValidDate t1 := hval (t1, e1) (List.mem_cons_self _ _)
    have hw1 : dateLe w t1 := hfut (t1, e1) (List.mem_cons_self _ _)
    have hval' : ∀ q ∈ rest, ValidDate q.1 := fun q hq => hval q (List.mem_cons_of_mem _ hq)
    have hfst := (List.pairwise_cons.mp hsort).1
    have hsort' := (List.pairwise_cons.mp hsort).2
    simp only [firedDates] at hc
    by_cases hf : (evaluateBudget b e1 t1).1 = true
    · rw [if_pos hf] at hc
      rcases List.mem_cons.mp hc with rfl | hc2
      · intro hsm
        have hnm := evaluateBudget_fire_isNewMonth b e1 c w hb hf
        rw [isNewMonth_iff] at hnm
        exact hnm (sameMonth_between t w c hvt hvw hv1 htw hw1 hsm).2
      · have hst := evaluateBudget_snd_fire b e1 t1 hf
        refine ih (evaluateBudget b e1 t1).2 t t1 ?_ hvt hv1
          (dateLe_trans t w t1 htw hw1) hval' ?_ hsort' c hc2
        · rw [hst]
        · intro q hq
          exact hfst q hq
    · rw [if_neg hf] at hc
      have hst := evaluateBudget_snd_nofire b e1 t1 hf
      refine ih (evaluateBudget b e1 t1).2 t w ?_ hvt hvw htw hval' ?_ hsort' c hc
      · rw [hst]
        exact hb
      · intro q hq
        exact hfut q (List.mem_cons_of_mem _ hq)

/-- Along a trace the instants that fire are pairwise in distinct calendar
months. -/
theorem firedDates_pairwise (evs : List (CDate × ℚ)) :
    ∀ b : Budget, (∀ p ∈ evs, ValidDate p.1) →
      List.Pairwise (fun p q : CDate × ℚ => dateLe p.1 q.1) evs →
      List.Pairwise (fun a c : CDate => ¬ sameMonth a c) (firedDates b evs) := by
  induction evs with
  | nil =>
    intro b _ _
    simp [firedDates]
  | cons p rest ih =>
    obtain ⟨t1, e1⟩ := p
    intro b hvalid hsorted
    have hv1 : ValidDate t1 := hvalid (t1, e1) (List.mem_cons_self _ _)
    have hfst := (List.pairwise_cons.mp hsorted).1
    have hsorted' := (List.pairwise_cons.mp hsorted).2
    have hvalid' : ∀ q ∈ rest, ValidDate q.1 := fun q hq => hvalid q (List.mem_cons_of_mem _ hq)
    simp only [firedDates]
    by_cases hf : (evaluateBudget b e1 t1).1 = true
    · rw [if_pos hf]
      refine List.pairwise_cons.mpr ⟨?_, ih (evaluateBudget b e1 t1).2 hvalid' hsorted'⟩
      intro c hc
      have hst := evaluateBudget_snd_fire b e1 t1 hf
      refine firedDates_after rest (evaluateBudget b e1 t1).2 t1 t1 ?_ hv1 hv1
        (dateLe_refl t1) hvalid' (fun q hq => hfst q hq) hsorted' c hc
      rw [hst]
    · rw [if_neg hf]
      exact ih (evaluateBudget b e1 t1).2 hvalid' hsorted'

/-- C7: under the step relation in which a successful fire sets
`lastAlertSent` to the firing instant (and a non-fire leaves the budget
unchanged — `lastAlertSent` is not otherwise advanced), a trace of evaluator
invocations at valid, nondecreasing instants never fires twice within one
calendar month: the firing instants are pairwise in distinct (month, year)
pairs, whatever the initial `lastAlertSent` and the per-invocation expense
sums. -/
theorem budgetAlert_once_per_month (b : Budget) (evs : List (CDate × ℚ))
    (hvalid : ∀ p ∈ evs, ValidDate p.1)
    (hsorted : List.Pairwise (fun p q : CDate × ℚ => dateLe p.1 q.1) evs) :
    List.Pairwise (fun a c : CDate => ¬ sameMonth a c) (firedDates b evs) :=
  firedDates_pairwise evs b hvalid hsorted

/-- Witness for C7: two over-threshold invocations on 2024-03-15 and
2024-03-20; only the first fires. -/
theorem budgetAlert_once_per_month_witness :
    (∀ p ∈ sampleEvs, ValidDate p.1) ∧
    List.Pairwise (fun p q : CDate × ℚ => dateLe p.1 q.1) sampleEvs ∧
    List.Pairwise (fun a c : CDate => ¬ sameMonth a c) (firedDates sampleBudget sampleEvs) :=
  ⟨by decide, by decide,
    budgetAlert_once_per_month sampleBudget sampleEvs (by decide) (by decide)⟩

end CashVault
